import Mathlib

/-!
Shallow embedding of the `ccache` LRU cache core (the `CacheInt64` engine:
sharded storage, single-owner coordinator loop, promotion/deletion messages,
bounded GC sweep) together with proofs of the specification claims.

Modelling conventions, matching the Go source:
* Go pointers to `ItemInt64` are modelled as identifiers (`Nat`) into a heap
  `items : Nat → ItemInt64`; fresh allocations take `nextId`.
* The shards (`buckets []*bucketInt64`) partition the keyspace by
  `key & bucketMask`; since every operation on a key touches exactly the one
  bucket owning that key, the union of the bucket maps is a single association
  list `lookup : List (Int × Nat)` with distinct keys.  `ItemCount`, which sums
  `len` over the buckets, is the length of that union.
* The recency list (`container/list`) is `lruList : List Nat` of item ids,
  front = most recently used.  `list.Remove`/`MoveToFront` on an element whose
  node was already removed is a no-op on the list in Go (the `e.list == l`
  guard); this is mirrored by `List.erase` (no-op when absent) and by an
  explicit membership test in the move-to-front case.
* The coordinator's channels are modelled by explicit message lists: each
  façade operation returns the messages it sends (`Msg.delete` to the blocking
  `deletables` channel, `Msg.promote` to the non-blocking `promotables`
  channel); a synchronous runner processes them in order, which models the
  state once the worker has drained all pending messages (channel drops are
  not modelled: buffers are treated as never full).
* `int32` promotion counters wrap modulo 2^32 (`wrap32`); times are `Int`
  nanoseconds (`UnixNano`).
* GC evictions are additionally recorded in a ghost field `evicted` (the keys,
  in eviction order), mirroring the worker's `dropped` counter and the
  `onDelete` callback in `gc`.
-/

namespace CCache

/-- A Go `interface{}` payload: an `*int64` cell (its current content inlined,
since each cell in this code is owned by the single item holding it), an
opaque value, or a value implementing `Sized`. -/
inductive GoValue where
  | intPtr (v : Int)
  | plain (tag : Nat)
  | sized (tag : Nat) (sz : Int)
deriving DecidableEq

def GoValue.isIntPtr : GoValue → Bool
  | .intPtr _ => true
  | _ => false

/-- `newItemInt64`: `size = 1` unless the value implements `Sized`. -/
def goValueSize : GoValue → Int
  | .sized _ sz => sz
  | _ => 1

/-- Two's-complement wrap of an `int32` field held as an `Int`. -/
def wrap32 (x : Int) : Int := (x + 2147483648) % 4294967296 - 2147483648

/-- `ItemInt64`: one cached record.  `element : Bool` models whether
`item.element` (the recency-list node pointer) is non-nil. -/
structure ItemInt64 where
  key : Int
  promotions : Int
  refCount : Int
  expires : Int
  size : Int
  value : GoValue
  element : Bool
deriving DecidableEq

def newItemInt64 (key : Int) (value : GoValue) (expires : Int) (track : Bool) :
    ItemInt64 :=
  { key := key
    value := value
    promotions := 0
    refCount := if track then 1 else 0
    size := goValueSize value
    expires := expires
    element := false }

/-- `Item.shouldPromote`: increments the promotion counter (an `int32`) and
reports whether it reached `getsPerPromote`.  Returns the mutated item. -/
def ItemInt64.shouldPromote (i : ItemInt64) (getsPerPromote : Int) :
    ItemInt64 × Bool :=
  let i' := { i with promotions := wrap32 (i.promotions + 1) }
  (i', i'.promotions == getsPerPromote)

/-- `Item.Expired()` at an explicit current time: `expires < now`. -/
def ItemInt64.IsExpiredAt (i : ItemInt64) (now : Int) : Bool :=
  i.expires < now

/-- `Item.TTL()` at an explicit current time: `expires - now` nanoseconds. -/
def ItemInt64.TTLAt (i : ItemInt64) (now : Int) : Int :=
  i.expires - now

/-- Association-list lookup, modelling `bucket.lookup[key]` over the union of
all buckets. -/
def alGet (l : List (Int × Nat)) (k : Int) : Option Nat :=
  (l.find? (fun p => p.1 == k)).map (·.2)

/-- Map assignment `lookup[key] = id` (replaces any previous binding). -/
def alPut (l : List (Int × Nat)) (k : Int) (id : Nat) : List (Int × Nat) :=
  (k, id) :: l.filter (fun p => p.1 != k)

/-- Map removal `delete(lookup, key)`. -/
def alDel (l : List (Int × Nat)) (k : Int) : List (Int × Nat) :=
  l.filter (fun p => p.1 != k)

/-- A message to the coordinator: `delete` goes to the blocking `deletables`
channel, `promote` to the non-blocking `promotables` channel. -/
inductive Msg where
  | delete (id : Nat)
  | promote (id : Nat)
deriving DecidableEq

/-- The cache state: item heap, union of the bucket maps, coordinator-owned
recency list and size accounting, and the (construction-time) configuration
fields the engine reads. -/
structure CacheState where
  items : Nat → ItemInt64
  nextId : Nat
  lookup : List (Int × Nat)
  lruList : List Nat
  size : Int
  maxSize : Int
  itemsToPrune : Nat
  getsPerPromote : Int
  tracking : Bool
  evicted : List Int

/-- Heap update at one id. -/
def updItems (f : Nat → ItemInt64) (i : Nat) (it : ItemInt64) :
    Nat → ItemInt64 :=
  fun j => if j = i then it else f j

def dummyItem : ItemInt64 :=
  { key := 0, promotions := 0, refCount := 0, expires := 0, size := 0,
    value := .plain 0, element := false }

/-- `NewCacheInt64`: empty buckets, fresh list, zero size. -/
def initState (maxSize : Int) (itemsToPrune : Nat) (getsPerPromote : Int)
    (tracking : Bool) : CacheState :=
  { items := fun _ => dummyItem
    nextId := 0
    lookup := []
    lruList := []
    size := 0
    maxSize := maxSize
    itemsToPrune := itemsToPrune
    getsPerPromote := getsPerPromote
    tracking := tracking
    evicted := [] }

/-- `ItemCount()`: the summed `len` of the bucket maps. -/
def ItemCount (s : CacheState) : Nat := s.lookup.length

/-- `bucket.set`: allocate `newItemInt64(key, value, now+duration, track)`,
store it under `key`, return the new item's id and the displaced one. -/
def bucketSet (s : CacheState) (key : Int) (value : GoValue) (duration : Int)
    (now : Int) (track : Bool) : CacheState × Nat × Option Nat :=
  let expires := now + duration
  let item := newItemInt64 key value expires track
  let id := s.nextId
  let existing := alGet s.lookup key
  ({ s with
      items := updItems s.items id item
      nextId := id + 1
      lookup := alPut s.lookup key id }, id, existing)

/-- `Cache.set`: shard set; a blocking delete message for the displaced item
(if any) and a promote message for the new one. -/
def cacheSet (s : CacheState) (key : Int) (value : GoValue) (duration : Int)
    (now : Int) (track : Bool) : CacheState × Nat × List Msg :=
  let r := bucketSet s key value duration now track
  let msgs :=
    (match r.2.2 with
     | some ex => [Msg.delete ex]
     | none => []) ++ [Msg.promote r.2.1]
  (r.1, r.2.1, msgs)

/-- `Cache.Get` at an explicit current time: shard lookup; found and not
expired ⇒ send a promote message; the item is returned even if expired. -/
def cacheGet (s : CacheState) (key : Int) (now : Int) :
    Option Nat × List Msg :=
  match alGet s.lookup key with
  | none => (none, [])
  | some id =>
      (some id,
       if (s.items id).IsExpiredAt now then [] else [Msg.promote id])

/-- Worker `doDelete`: an item never linked is only marked removed
(`promotions = -2`); a linked one has its weight subtracted and its node
removed (`list.Remove` is a no-op if the node was already removed). -/
def doDelete (s : CacheState) (id : Nat) : CacheState :=
  let item := s.items id
  if item.element = false then
    { s with items := updItems s.items id { item with promotions := -2 } }
  else
    { s with
        size := s.size - item.size
        lruList := s.lruList.erase id }

/-- Worker `doPromote`: ignore items marked removed; an already-linked item
runs the `shouldPromote` counter and is moved to the front when it fires
(`MoveToFront` is a no-op if the node was already removed); a new item is
linked at the front and its weight added.  Returns `true` only for new
links. -/
def doPromote (s : CacheState) (id : Nat) : CacheState × Bool :=
  let item := s.items id
  if item.promotions = -2 then (s, false)
  else if item.element = true then
    let r := item.shouldPromote s.getsPerPromote
    if r.2 then
      ({ s with
          items := updItems s.items id { r.1 with promotions := 0 }
          lruList :=
            if id ∈ s.lruList then id :: s.lruList.erase id else s.lruList },
       false)
    else
      ({ s with items := updItems s.items id r.1 }, false)
  else
    ({ s with
        size := s.size + item.size
        items := updItems s.items id { item with element := true }
        lruList := id :: s.lruList }, true)

/-- One GC candidate visit: evict unless tracking is on and the reference
count is non-zero.  Eviction deletes the key from its bucket, subtracts the
weight, removes the list node, marks the item removed and logs the drop. -/
def gcStep (s : CacheState) (id : Nat) : CacheState :=
  if s.tracking = false ∨ (s.items id).refCount = 0 then
    { s with
        lookup := alDel s.lookup (s.items id).key
        size := s.size - (s.items id).size
        lruList := s.lruList.erase id
        items := updItems s.items id { s.items id with promotions := -2 }
        evicted := s.evicted ++ [(s.items id).key] }
  else s

/-- Worker `gc`: walk up to `itemsToPrune` nodes from the back (least
recently used) of the list, visiting each candidate once; `prev` is taken
before any removal, so the candidates are the last `itemsToPrune` elements of
the list at entry. -/
def gc (s : CacheState) : CacheState :=
  (s.lruList.reverse.take s.itemsToPrune).foldl gcStep s

/-- The worker's handling of one received message: promotes run the GC sweep
when a new link pushes the size over the bound. -/
def procMsg (s : CacheState) : Msg → CacheState
  | .delete id => doDelete s id
  | .promote id =>
      let r := doPromote s id
      if r.2 = true ∧ r.1.maxSize < r.1.size then gc r.1 else r.1

/-- A client operation, carrying the wall-clock time at which it runs. -/
inductive Op where
  | set (key : Int) (value : GoValue) (duration : Int) (now : Int)
  | get (key : Int) (now : Int)

/-- One operation followed by the worker draining the messages it sent. -/
def applyOp (s : CacheState) : Op → CacheState
  | .set k v d now =>
      let r := cacheSet s k v d now false
      r.2.2.foldl procMsg r.1
  | .get k now =>
      let r := cacheGet s k now
      r.2.foldl procMsg s

/-- Run a sequence of operations, each drained synchronously. -/
def runOps (s : CacheState) (ops : List Op) : CacheState :=
  ops.foldl applyOp s

/-- `bucket.incrNow`: if an existing entry is live (`expires > now`) and its
value is an `*int64`, add `value` in place and return the sum and the existing
item (`exis`); otherwise store a fresh item holding `value` and return it as
`pro`.  The displaced entry (if any) is simply overwritten in the map. -/
def incrNow (s : CacheState) (key : Int) (value : Int) (now : Int)
    (duration : Int) (track : Bool) :
    CacheState × Int × Option Nat × Option Nat :=
  let tm := now
  let expires := now + duration
  let item := newItemInt64 key (.intPtr value) expires track
  let store : CacheState :=
    { s with
        items := updItems s.items s.nextId item
        nextId := s.nextId + 1
        lookup := alPut s.lookup key s.nextId }
  match alGet s.lookup key with
  | some exId =>
      let ex := s.items exId
      if tm < ex.expires then
        match ex.value with
        | .intPtr v =>
            ({ s with
                items := updItems s.items exId
                  { ex with value := .intPtr (v + value) } },
             v + value, none, some exId)
        | _ => (store, value, some s.nextId, none)
      else (store, value, some s.nextId, none)
  | none => (store, value, some s.nextId, none)

/-- `bucket.incrNowPromote`: like `incrNow`, but a live integer hit also has
its deadline rewritten to `now + duration` (`atomic.StoreInt64`). -/
def incrNowPromote (s : CacheState) (key : Int) (value : Int) (now : Int)
    (duration : Int) (track : Bool) :
    CacheState × Int × Option Nat × Option Nat :=
  let tm := now
  let expires := now + duration
  let item := newItemInt64 key (.intPtr value) expires track
  let store : CacheState :=
    { s with
        items := updItems s.items s.nextId item
        nextId := s.nextId + 1
        lookup := alPut s.lookup key s.nextId }
  match alGet s.lookup key with
  | some exId =>
      let ex := s.items exId
      if tm < ex.expires then
        match ex.value with
        | .intPtr v =>
            ({ s with
                items := updItems s.items exId
                  { ex with value := .intPtr (v + value), expires := expires } },
             v + value, none, some exId)
        | _ => (store, value, some s.nextId, none)
      else (store, value, some s.nextId, none)
  | none => (store, value, some s.nextId, none)

/-- `Cache.Incr`: `bucket.incr` (which runs `incrNow`); only a freshly stored
item is promoted, and no delete message is ever sent. -/
def cacheIncr (s : CacheState) (key : Int) (n : Int) (now : Int)
    (duration : Int) : CacheState × Int × List Msg :=
  let r := incrNow s key n now duration false
  (r.1, r.2.1,
   match r.2.2.1 with
   | some id => [Msg.promote id]
   | none => [])

/-- `Cache.IncrPromote`: also calls `bucket.incr` (hence `incrNow`, with no
deadline renewal); it promotes the freshly stored item, or, failing that, the
touched existing one.  No delete message is ever sent. -/
def cacheIncrPromote (s : CacheState) (key : Int) (n : Int) (now : Int)
    (duration : Int) : CacheState × Int × List Msg :=
  let r := incrNow s key n now duration false
  (r.1, r.2.1,
   match r.2.2.1 with
   | some id => [Msg.promote id]
   | none =>
       match r.2.2.2 with
       | some ex => [Msg.promote ex]
       | none => [])

/-- `Cache.Fetch`: `Get`, return a live hit directly; otherwise run the
loader; an error is propagated with nothing cached; a value is stored via
`set`.  The loader's answer is `Except.error e` or `Except.ok v`. -/
def cacheFetch (s : CacheState) (key : Int) (duration : Int) (now : Int)
    (loader : Except Nat GoValue) :
    CacheState × List Msg × Except Nat Nat :=
  let g := cacheGet s key now
  match g.1 with
  | some id =>
      if (s.items id).IsExpiredAt now then
        match loader with
        | .error e => (s, g.2, .error e)
        | .ok v =>
            let r := cacheSet s key v duration now false
            (r.1, g.2 ++ r.2.2, .ok r.2.1)
      else (s, g.2, .ok id)
  | none =>
      match loader with
      | .error e => (s, g.2, .error e)
      | .ok v =>
          let r := cacheSet s key v duration now false
          (r.1, g.2 ++ r.2.2, .ok r.2.1)

/-- The configuration record (`ConfigurationInt64`), with the fluent
defaults of `ConfigureInt64`. -/
structure ConfigurationInt64 where
  maxSize : Int
  buckets : Nat
  itemsToPrune : Nat
  deleteBuffer : Nat
  promoteBuffer : Nat
  getsPerPromote : Int
  tracking : Bool
deriving DecidableEq

def ConfigureInt64 : ConfigurationInt64 :=
  { maxSize := 5000
    buckets := 16
    itemsToPrune := 500
    deleteBuffer := 1024
    promoteBuffer := 1024
    getsPerPromote := 3
    tracking := false }

/-- The `uint32` computation `count & (^count + 1)` of
`ConfigurationInt64.Buckets`: `^count + 1` is two's-complement negation,
`(2^32 - count) % 2^32` for `count < 2^32`. -/
def bucketsCheck (count : Nat) : Nat :=
  count &&& ((4294967296 - count) % 4294967296)

/-- `ConfigurationInt64.Buckets`: a zero or non-power-of-two count is
silently replaced by 16. -/
def ConfigurationInt64.Buckets (c : ConfigurationInt64) (count : Nat) :
    ConfigurationInt64 :=
  let count' :=
    if count = 0 ∨ ¬(bucketsCheck count = count) then 16 else count
  { c with buckets := count' }

/-- Sum of the weights of the list-linked entries. -/
def totalWeight (s : CacheState) : Int :=
  (s.lruList.map (fun id => (s.items id).size)).sum

/-- Sum of the weights of the list-linked entries that are pinned
(`refCount > 0`). -/
def trackedWeight (s : CacheState) : Int :=
  ((s.lruList.filter (fun id => 0 < (s.items id).refCount)).map
    (fun id => (s.items id).size)).sum

/-- `Item.track()`: one more reference (atomic increment). -/
def ItemInt64.track (i : ItemInt64) : ItemInt64 :=
  { i with refCount := i.refCount + 1 }

/-- `Item.Release()`: drop a reference (atomic decrement). -/
def ItemInt64.Release (i : ItemInt64) : ItemInt64 :=
  { i with refCount := i.refCount - 1 }

/-- Releasing a tracked entry through the heap. -/
def releaseItem (s : CacheState) (id : Nat) : CacheState :=
  { s with items := updItems s.items id (s.items id).Release }

/-- Operations whose stored payload has unit weight. -/
def opUnit : Op → Prop
  | .set _ v _ _ => goValueSize v = 1
  | .get _ _ => True

/-- The coordinator-state invariant maintained by the synchronous runner on a
unit-weight, tracking-off cache: the recency list has no duplicate nodes, its
entries have weight 1, are marked linked, and are allocation-fresh; the size
accumulator equals the list length; and the shard maps and the list agree
(every mapped id is listed under its own key and vice versa). -/
structure InvCore (s : CacheState) : Prop where
  htrack : s.tracking = false
  nodup : s.lruList.Nodup
  unit : ∀ id ∈ s.lruList, (s.items id).size = 1
  linked : ∀ id ∈ s.lruList, (s.items id).element = true
  fresh : ∀ id ∈ s.lruList, id < s.nextId
  szEq : s.size = s.lruList.length
  lkMem : ∀ k id, alGet s.lookup k = some id → id ∈ s.lruList
  lkKey : ∀ k id, alGet s.lookup k = some id → (s.items id).key = k
  lkFresh : ∀ k id, alGet s.lookup k = some id → id < s.nextId
  memLk : ∀ id ∈ s.lruList, alGet s.lookup (s.items id).key = some id

/-- The full runner invariant: the core structural invariant, the pinned
configuration, and the capacity bound. -/
def InvFull (ms : Int) (prune : Nat) (s : CacheState) : Prop :=
  InvCore s ∧ s.maxSize = ms ∧ s.itemsToPrune = prune ∧ s.size ≤ max ms 0

/-- The C1 scenario state: max size 2, `itemsToPrune` 10, then `Set(A)`,
`Set(B)`, `Set(C)` on distinct keys A = 0, B = 1, C = 2, every message
drained. -/
def c1State : CacheState :=
  runOps (initState 2 10 3 false)
    [.set 0 (.plain 0) 1000 0, .set 1 (.plain 0) 1000 0,
     .set 2 (.plain 0) 1000 0]

/-- The same scenario with `itemsToPrune` 1 instead of 10. -/
def c1StateAmended : CacheState :=
  runOps (initState 2 1 3 false)
    [.set 0 (.plain 0) 1000 0, .set 1 (.plain 0) 1000 0,
     .set 2 (.plain 0) 1000 0]

/-- State after `Incr(7, 5, 100)` on an empty cache at time 0. -/
def c2First : CacheState × Int × List Msg :=
  cacheIncr (initState 5000 500 3 false) 7 5 0 100

/-- `IncrPromote(7, 3, 100)` at time 50, before the entry expires. -/
def c2Second : CacheState × Int × List Msg :=
  cacheIncrPromote c2First.1 7 3 50 100

/-- The state of the C3 counterexample: max size 1, `itemsToPrune` 1,
tracking off; two unit entries then one `Sized` entry of weight 5. -/
def c3State : CacheState :=
  runOps (initState 1 1 3 false)
    [.set 0 (.plain 0) 1000 0, .set 1 (.plain 0) 1000 0,
     .set 2 (.sized 0 5) 1000 0]

/-- C4 witness: the state after two `Set`s on a fresh cache with
`getsPerPromote = 3`; key 0's entry (id 0) sits at the back of the list. -/
def c4State : CacheState :=
  runOps (initState 100 10 3 false)
    [.set 0 (.plain 0) 1000 0, .set 1 (.plain 0) 1000 0]

/-- C5 witness state: a single pinned entry (refCount 1) in a tracking cache
already over budget (`maxSize = 0`). -/
def c5State : CacheState :=
  { items := updItems (fun _ => dummyItem) 0
      ((newItemInt64 4 (.plain 0) 1000 true).track)
    nextId := 1
    lookup := [(4, 0)]
    lruList := [0]
    size := 1
    maxSize := 0
    itemsToPrune := 5
    getsPerPromote := 3
    tracking := true
    evicted := [] }

/-! ## Helper lemmas -/

theorem alGet_alPut_self (l : List (Int × Nat)) (k : Int) (id : Nat) :
    alGet (alPut l k id) k = some id := by
  simp [alGet, alPut]

theorem alGet_nil (k : Int) : alGet [] k = none := rfl

theorem alGet_cons (a : Int × Nat) (t : List (Int × Nat)) (k' : Int) :
    alGet (a :: t) k' = if a.1 = k' then some a.2 else alGet t k' := by
  by_cases h : a.1 = k'
  · simp [alGet, List.find?, h]
  · have hb : (a.1 == k') = false := beq_eq_false_iff_ne.mpr h
    simp [alGet, List.find?, h, hb]

theorem alDel_cons (a : Int × Nat) (t : List (Int × Nat)) (k : Int) :
    alDel (a :: t) k = if a.1 = k then alDel t k else a :: alDel t k := by
  by_cases h : a.1 = k <;> simp [alDel, List.filter_cons, h]

theorem alGet_alDel_ne (l : List (Int × Nat)) (k k' : Int) (h : k' ≠ k) :
    alGet (alDel l k) k' = alGet l k' := by
  induction l with
  | nil => rfl
  | cons a t ih =>
      rw [alDel_cons]
      by_cases ha : a.1 = k
      · rw [if_pos ha, ih, alGet_cons,
          if_neg (by rw [ha]; exact fun he => h he.symm)]
      · rw [if_neg ha, alGet_cons, alGet_cons]
        by_cases hk' : a.1 = k'
        · rw [if_pos hk', if_pos hk']
        · rw [if_neg hk', if_neg hk', ih]

theorem alGet_alDel_self (l : List (Int × Nat)) (k : Int) :
    alGet (alDel l k) k = none := by
  induction l with
  | nil => rfl
  | cons a t ih =>
      rw [alDel_cons]
      by_cases ha : a.1 = k
      · rw [if_pos ha, ih]
      · rw [if_neg ha, alGet_cons, if_neg ha, ih]

theorem alGet_alPut_ne (l : List (Int × Nat)) (k k' : Int) (id : Nat)
    (h : k' ≠ k) : alGet (alPut l k id) k' = alGet l k' := by
  show alGet ((k, id) :: alDel l k) k' = alGet l k'
  rw [alGet_cons, if_neg (fun he => h he.symm), alGet_alDel_ne l k k' h]

theorem sum_map_ones {f : Nat → Int} :
    ∀ (l : List Nat), (∀ id ∈ l, f id = 1) → (l.map f).sum = l.length := by
  intro l
  induction l with
  | nil => intro _; rfl
  | cons a t ih =>
      intro h
      have ha := h a (List.mem_cons_self a t)
      have ht := ih (fun id hid => h id (List.mem_cons_of_mem a hid))
      simp only [List.map_cons, List.sum_cons, List.length_cons, ha, ht]
      push_cast
      ring

theorem updItems_self (f : Nat → ItemInt64) (i : Nat) (it : ItemInt64) :
    updItems f i it i = it := by
  simp [updItems]

theorem updItems_ne (f : Nat → ItemInt64) (i j : Nat) (it : ItemInt64)
    (h : j ≠ i) : updItems f i it j = f j := by
  simp [updItems, h]

theorem doPromote_removed (s : CacheState) (id : Nat)
    (h : (s.items id).promotions = -2) : doPromote s id = (s, false) := by
  simp [doPromote, h]

theorem doPromote_new (s : CacheState) (id : Nat)
    (hne : (s.items id).promotions ≠ -2)
    (helem : (s.items id).element = false) :
    doPromote s id
      = ({ s with
            size := s.size + (s.items id).size
            items := updItems s.items id { s.items id with element := true }
            lruList := id :: s.lruList }, true) := by
  simp [doPromote, hne, helem]

theorem doPromote_linked_noMove (s : CacheState) (id : Nat)
    (hne : (s.items id).promotions ≠ -2)
    (helem : (s.items id).element = true)
    (hlt : wrap32 ((s.items id).promotions + 1) ≠ s.getsPerPromote) :
    doPromote s id
      = ({ s with
            items := updItems s.items id
              { s.items id with
                  promotions := wrap32 ((s.items id).promotions + 1) } },
         false) := by
  simp [doPromote, hne, helem, ItemInt64.shouldPromote, hlt]

theorem doPromote_linked_move (s : CacheState) (id : Nat)
    (hne : (s.items id).promotions ≠ -2)
    (helem : (s.items id).element = true)
    (heq : wrap32 ((s.items id).promotions + 1) = s.getsPerPromote) :
    doPromote s id
      = ({ s with
            items := updItems s.items id { s.items id with promotions := 0 }
            lruList := if id ∈ s.lruList then id :: s.lruList.erase id
              else s.lruList }, false) := by
  simp [doPromote, hne, helem, ItemInt64.shouldPromote, heq]

theorem doDelete_linked (s : CacheState) (id : Nat)
    (h : (s.items id).element = true) :
    doDelete s id = { s with
        size := s.size - (s.items id).size
        lruList := s.lruList.erase id } := by
  simp [doDelete, h]

theorem mem_of_mem_gcStep (s : CacheState) (c id : Nat)
    (h : id ∈ (gcStep s c).lruList) : id ∈ s.lruList := by
  unfold gcStep at h
  split at h
  · exact List.mem_of_mem_erase h
  · exact h

theorem mem_of_mem_gcFold (cs : List Nat) (s : CacheState) (id : Nat)
    (h : id ∈ (cs.foldl gcStep s).lruList) : id ∈ s.lruList := by
  induction cs generalizing s with
  | nil => exact h
  | cons c cs ih => exact mem_of_mem_gcStep _ _ _ (ih _ h)

theorem gcFold_keeps_tracked (cs : List Nat) (s : CacheState) (id : Nat)
    (htr : s.tracking = true) (hrc : (s.items id).refCount ≠ 0)
    (hmem : id ∈ s.lruList) :
    id ∈ (cs.foldl gcStep s).lruList := by
  induction cs generalizing s with
  | nil => exact hmem
  | cons c cs ih =>
      by_cases hc : c = id
      · subst hc
        have hskip : gcStep s c = s := by
          unfold gcStep
          rw [if_neg]
          push_neg
          exact ⟨by simp [htr], hrc⟩
        simpa [hskip] using ih s htr hrc hmem
      · have hne : id ≠ c := fun h => hc h.symm
        have htr' : (gcStep s c).tracking = true := by
          unfold gcStep; split <;> simp [htr]
        have hit' : (gcStep s c).items id = s.items id := by
          unfold gcStep
          split
          · exact updItems_ne s.items c id _ hne
          · rfl
        have hmem' : id ∈ (gcStep s c).lruList := by
          unfold gcStep
          split
          · exact (List.mem_erase_of_ne hne).mpr hmem
          · exact hmem
        have := ih (gcStep s c) htr' (by rw [hit']; exact hrc) hmem'
        simpa using this

/-- After a `gcStep` the untouched ids keep their items. -/
theorem gcFold_evicts (cs : List Nat) (s : CacheState) (id : Nat)
    (hrc : (s.items id).refCount = 0) (hid : id ∈ cs)
    (hnd : s.lruList.Nodup) : id ∉ (cs.foldl gcStep s).lruList := by
  induction cs generalizing s with
  | nil => cases hid
  | cons c cs ih =>
      by_cases hc : c = id
      · subst hc
        have hgone : c ∉ (gcStep s c).lruList := by
          unfold gcStep
          rw [if_pos (Or.inr hrc)]
          intro hmem
          exact ((List.Nodup.mem_erase_iff hnd).mp hmem).1 rfl
        intro hmem
        exact hgone (mem_of_mem_gcFold cs (gcStep s c) c hmem)
      · have hne : id ≠ c := fun h => hc h.symm
        have hit' : (gcStep s c).items id = s.items id := by
          unfold gcStep
          split
          · exact updItems_ne s.items c id _ hne
          · rfl
        have hnd' : (gcStep s c).lruList.Nodup := by
          unfold gcStep
          split
          · exact List.Nodup.erase _ hnd
          · exact hnd
        have hid' : id ∈ cs := by
          rcases List.mem_cons.mp hid with h | h
          · exact absurd h hne
          · exact h
        exact ih (gcStep s c) (by rw [hit']; exact hrc) hid' hnd'

theorem gcStep_evict (s : CacheState) (c : Nat)
    (htrack : s.tracking = false) :
    gcStep s c = { s with
        lookup := alDel s.lookup (s.items c).key
        size := s.size - (s.items c).size
        lruList := s.lruList.erase c
        items := updItems s.items c { s.items c with promotions := -2 }
        evicted := s.evicted ++ [(s.items c).key] } := by
  unfold gcStep
  rw [if_pos (Or.inl htrack)]

theorem InvCore_gcStep (s : CacheState) (c : Nat) (hinv : InvCore s)
    (hc : c ∈ s.lruList) :
    InvCore (gcStep s c) ∧ (gcStep s c).size = s.size - 1 ∧
      (gcStep s c).lruList = s.lruList.erase c ∧
      (gcStep s c).maxSize = s.maxSize ∧
      (gcStep s c).itemsToPrune = s.itemsToPrune := by
  have hlen1 : 0 < s.lruList.length :=
    List.length_pos.mpr (List.ne_nil_of_mem hc)
  rw [gcStep_evict s c hinv.htrack]
  refine ⟨?_, ?_, rfl, rfl, rfl⟩
  · constructor
    · exact hinv.htrack
    · exact List.Nodup.erase c hinv.nodup
    · intro id hid
      obtain ⟨hne, hmem⟩ := (List.Nodup.mem_erase_iff hinv.nodup).mp hid
      show (updItems s.items c _ id).size = 1
      rw [updItems_ne s.items c id _ hne]
      exact hinv.unit id hmem
    · intro id hid
      obtain ⟨hne, hmem⟩ := (List.Nodup.mem_erase_iff hinv.nodup).mp hid
      show (updItems s.items c _ id).element = true
      rw [updItems_ne s.items c id _ hne]
      exact hinv.linked id hmem
    · intro id hid
      obtain ⟨_, hmem⟩ := (List.Nodup.mem_erase_iff hinv.nodup).mp hid
      exact hinv.fresh id hmem
    · show s.size - (s.items c).size = ((s.lruList.erase c).length : Int)
      rw [hinv.unit c hc, List.length_erase_of_mem hc, hinv.szEq]
      omega
    · intro k id hget
      by_cases hk : k = (s.items c).key
      · subst hk
        rw [alGet_alDel_self] at hget
        cases hget
      · rw [alGet_alDel_ne _ _ _ hk] at hget
        have hmem := hinv.lkMem k id hget
        have hne : id ≠ c := by
          intro he
          subst he
          exact hk (hinv.lkKey k id hget).symm
        exact (List.Nodup.mem_erase_iff hinv.nodup).mpr ⟨hne, hmem⟩
    · intro k id hget
      by_cases hk : k = (s.items c).key
      · subst hk
        rw [alGet_alDel_self] at hget
        cases hget
      · rw [alGet_alDel_ne _ _ _ hk] at hget
        have hne : id ≠ c := by
          intro he
          subst he
          exact hk (hinv.lkKey k id hget).symm
        show (updItems s.items c _ id).key = k
        rw [updItems_ne s.items c id _ hne]
        exact hinv.lkKey k id hget
    · intro k id hget
      by_cases hk : k = (s.items c).key
      · subst hk
        rw [alGet_alDel_self] at hget
        cases hget
      · rw [alGet_alDel_ne _ _ _ hk] at hget
        exact hinv.lkFresh k id hget
    · intro id hid
      obtain ⟨hne, hmem⟩ := (List.Nodup.mem_erase_iff hinv.nodup).mp hid
      have hkk : (s.items id).key ≠ (s.items c).key := by
        intro he
        have h1 := hinv.memLk id hmem
        have h2 := hinv.memLk c hc
        rw [he, h2] at h1
        exact hne (Option.some.inj h1).symm
      show alGet (alDel s.lookup (s.items c).key)
          ((updItems s.items c _ id).key) = some id
      rw [updItems_ne s.items c id _ hne, alGet_alDel_ne _ _ _ hkk]
      exact hinv.memLk id hmem
  · rw [hinv.unit c hc]

theorem gcFoldInv :
    ∀ (cs : List Nat) (s : CacheState), InvCore s → cs.Nodup →
      (∀ c ∈ cs, c ∈ s.lruList) →
      InvCore (cs.foldl gcStep s) ∧
      (cs.foldl gcStep s).size = s.size - cs.length ∧
      (cs.foldl gcStep s).maxSize = s.maxSize ∧
      (cs.foldl gcStep s).itemsToPrune = s.itemsToPrune := by
  intro cs
  induction cs with
  | nil =>
      intro s hinv _ _
      exact ⟨hinv, by simp, rfl, rfl⟩
  | cons c t ih =>
      intro s hinv hnd hsub
      have hc : c ∈ s.lruList := hsub c (List.mem_cons_self c t)
      obtain ⟨hinv', hsz, hlist, hms, hpr⟩ := InvCore_gcStep s c hinv hc
      have hsub' : ∀ x ∈ t, x ∈ (gcStep s c).lruList := by
        intro x hx
        rw [hlist]
        have hxl := hsub x (List.mem_cons_of_mem c hx)
        have hxc : x ≠ c := by
          intro he
          subst he
          exact (List.nodup_cons.mp hnd).1 hx
        exact (List.Nodup.mem_erase_iff hinv.nodup).mpr ⟨hxc, hxl⟩
      obtain ⟨H1, H2, H3, H4⟩ :=
        ih (gcStep s c) hinv' (List.nodup_cons.mp hnd).2 hsub'
      refine ⟨H1, ?_, by rw [List.foldl_cons, H3, hms],
        by rw [List.foldl_cons, H4, hpr]⟩
      rw [List.foldl_cons, H2, hsz]
      simp only [List.length_cons]
      push_cast
      ring

theorem gcInv (s : CacheState) (hinv : InvCore s) :
    InvCore (gc s) ∧
    (gc s).size = s.size - min s.itemsToPrune s.lruList.length ∧
    (gc s).maxSize = s.maxSize ∧ (gc s).itemsToPrune = s.itemsToPrune := by
  have hnd : (s.lruList.reverse.take s.itemsToPrune).Nodup :=
    List.Sublist.nodup (List.take_sublist _ _)
      (List.nodup_reverse.mpr hinv.nodup)
  have hsub : ∀ c ∈ s.lruList.reverse.take s.itemsToPrune, c ∈ s.lruList :=
    fun c hcm => List.mem_reverse.mp (List.mem_of_mem_take hcm)
  have hlen : (s.lruList.reverse.take s.itemsToPrune).length
      = min s.itemsToPrune s.lruList.length := by
    simp [List.length_take]
  obtain ⟨H1, H2, H3, H4⟩ :=
    gcFoldInv (s.lruList.reverse.take s.itemsToPrune) s hinv hnd hsub
  exact ⟨H1, by rw [gc, H2, hlen], H3, H4⟩

theorem InvFull_promote_existing (ms : Int) (prune : Nat) (s : CacheState)
    (id : Nat) (hinv : InvFull ms prune s) (hmem : id ∈ s.lruList) :
    InvFull ms prune (procMsg s (Msg.promote id)) := by
  obtain ⟨hcore, hms, hpr, hbound⟩ := hinv
  have helem := hcore.linked id hmem
  by_cases hrm : (s.items id).promotions = -2
  · rw [procMsg]
    rw [doPromote_removed s id hrm]
    exact ⟨hcore, hms, hpr, hbound⟩
  · by_cases hmv : wrap32 ((s.items id).promotions + 1) = s.getsPerPromote
    · have hdp := doPromote_linked_move s id hrm helem hmv
      rw [procMsg, hdp]
      simp only [if_pos hmem, Bool.false_eq_true, false_and, if_false]
      refine ⟨?_, hms, hpr, hbound⟩
      constructor
      · exact hcore.htrack
      · exact List.nodup_cons.mpr
          ⟨fun hx => ((List.Nodup.mem_erase_iff hcore.nodup).mp hx).1 rfl,
           List.Nodup.erase id hcore.nodup⟩
      · intro x hx
        rcases List.mem_cons.mp hx with he | hx'
        · subst he
          show (updItems s.items x _ x).size = 1
          rw [updItems_self]
          exact hcore.unit x hmem
        · obtain ⟨hne, hx2⟩ := (List.Nodup.mem_erase_iff hcore.nodup).mp hx'
          show (updItems s.items id _ x).size = 1
          rw [updItems_ne s.items id x _ hne]
          exact hcore.unit x hx2
      · intro x hx
        rcases List.mem_cons.mp hx with he | hx'
        · subst he
          show (updItems s.items x _ x).element = true
          rw [updItems_self]
          exact helem
        · obtain ⟨hne, hx2⟩ := (List.Nodup.mem_erase_iff hcore.nodup).mp hx'
          show (updItems s.items id _ x).element = true
          rw [updItems_ne s.items id x _ hne]
          exact hcore.linked x hx2
      · intro x hx
        rcases List.mem_cons.mp hx with he | hx'
        · subst he
          exact hcore.fresh x hmem
        · exact hcore.fresh x (List.mem_of_mem_erase hx')
      · show s.size = ((id :: s.lruList.erase id).length : Int)
        rw [hcore.szEq]
        have h1 : 0 < s.lruList.length :=
          List.length_pos.mpr (List.ne_nil_of_mem hmem)
        simp only [List.length_cons, List.length_erase_of_mem hmem]
        omega
      · intro k x hget
        have hx := hcore.lkMem k x hget
        by_cases he : x = id
        · subst he
          exact List.mem_cons_self x _
        · exact List.mem_cons_of_mem id
            ((List.Nodup.mem_erase_iff hcore.nodup).mpr ⟨he, hx⟩)
      · intro k x hget
        by_cases he : x = id
        · subst he
          show (updItems s.items x _ x).key = k
          rw [updItems_self]
          exact hcore.lkKey k x hget
        · show (updItems s.items id _ x).key = k
          rw [updItems_ne s.items id x _ he]
          exact hcore.lkKey k x hget
      · exact hcore.lkFresh
      · intro x hx
        by_cases he : x = id
        · subst he
          show alGet s.lookup ((updItems s.items x _ x).key) = some x
          rw [updItems_self]
          exact hcore.memLk x hmem
        · show alGet s.lookup ((updItems s.items id _ x).key) = some x
          rw [updItems_ne s.items id x _ he]
          rcases List.mem_cons.mp hx with h1 | h1
          · exact absurd h1 he
          · exact hcore.memLk x (List.mem_of_mem_erase h1)
    · have hdp := doPromote_linked_noMove s id hrm helem hmv
      rw [procMsg, hdp]
      simp only [Bool.false_eq_true, false_and, if_false]
      refine ⟨?_, hms, hpr, hbound⟩
      constructor
      · exact hcore.htrack
      · exact hcore.nodup
      · intro x hx
        by_cases he : x = id
        · subst he
          show (updItems s.items x _ x).size = 1
          rw [updItems_self]
          exact hcore.unit x hmem
        · show (updItems s.items id _ x).size = 1
          rw [updItems_ne s.items id x _ he]
          exact hcore.unit x hx
      · intro x hx
        by_cases he : x = id
        · subst he
          show (updItems s.items x _ x).element = true
          rw [updItems_self]
          exact helem
        · show (updItems s.items id _ x).element = true
          rw [updItems_ne s.items id x _ he]
          exact hcore.linked x hx
      · exact hcore.fresh
      · exact hcore.szEq
      · exact hcore.lkMem
      · intro k x hget
        by_cases he : x = id
        · subst he
          show (updItems s.items x _ x).key = k
          rw [updItems_self]
          exact hcore.lkKey k x hget
        · show (updItems s.items id _ x).key = k
          rw [updItems_ne s.items id x _ he]
          exact hcore.lkKey k x hget
      · exact hcore.lkFresh
      · intro x hx
        by_cases he : x = id
        · subst he
          show alGet s.lookup ((updItems s.items x _ x).key) = some x
          rw [updItems_self]
          exact hcore.memLk x hx
        · show alGet s.lookup ((updItems s.items id _ x).key) = some x
          rw [updItems_ne s.items id x _ he]
          exact hcore.memLk x hx


theorem InvFull_linkNew (ms : Int) (prune : Nat) (hprune : 1 ≤ prune)
    (s2 : CacheState) (id0 : Nat)
    (hms : s2.maxSize = ms) (hpr : s2.itemsToPrune = prune)
    (htrack : s2.tracking = false)
    (hnodup : s2.lruList.Nodup)
    (hunit : ∀ id ∈ s2.lruList, (s2.items id).size = 1)
    (hlinked : ∀ id ∈ s2.lruList, (s2.items id).element = true)
    (hfresh : ∀ id ∈ s2.lruList, id < s2.nextId)
    (hszEq : s2.size = s2.lruList.length)
    (hlk : ∀ k id, alGet s2.lookup k = some id →
        (id = id0 ∨ id ∈ s2.lruList) ∧ (s2.items id).key = k ∧ id < s2.nextId)
    (hmemLk : ∀ id ∈ s2.lruList, alGet s2.lookup (s2.items id).key = some id)
    (hnew1 : (s2.items id0).element = false)
    (hnew2 : (s2.items id0).promotions = 0)
    (hnew3 : (s2.items id0).size = 1)
    (hnew4 : id0 ∉ s2.lruList)
    (hnew5 : id0 < s2.nextId)
    (hnew6 : alGet s2.lookup (s2.items id0).key = some id0)
    (hbound : s2.size ≤ max ms 0) :
    InvFull ms prune (procMsg s2 (Msg.promote id0)) := by
  have hnp : (s2.items id0).promotions ≠ -2 := by rw [hnew2]; decide
  have hdp := doPromote_new s2 id0 hnp hnew1
  have hcore3 : InvCore { s2 with
      size := s2.size + (s2.items id0).size
      items := updItems s2.items id0 { s2.items id0 with element := true }
      lruList := id0 :: s2.lruList } := by
    constructor
    · exact htrack
    · exact List.nodup_cons.mpr ⟨hnew4, hnodup⟩
    · intro x hx
      rcases List.mem_cons.mp hx with he | hx'
      · subst he
        show (updItems s2.items x _ x).size = 1
        rw [updItems_self]
        exact hnew3
      · have hne : x ≠ id0 := fun he => hnew4 (he ▸ hx')
        show (updItems s2.items id0 _ x).size = 1
        rw [updItems_ne s2.items id0 x _ hne]
        exact hunit x hx'
    · intro x hx
      rcases List.mem_cons.mp hx with he | hx'
      · subst he
        show (updItems s2.items x _ x).element = true
        rw [updItems_self]
      · have hne : x ≠ id0 := fun he => hnew4 (he ▸ hx')
        show (updItems s2.items id0 _ x).element = true
        rw [updItems_ne s2.items id0 x _ hne]
        exact hlinked x hx'
    · intro x hx
      rcases List.mem_cons.mp hx with he | hx'
      · subst he
        exact hnew5
      · exact hfresh x hx'
    · show s2.size + (s2.items id0).size = ((id0 :: s2.lruList).length : Int)
      rw [hnew3, hszEq]
      simp only [List.length_cons]
      push_cast
      ring
    · intro k x hget
      rcases (hlk k x hget).1 with he | hx'
      · subst he
        exact List.mem_cons_self x _
      · exact List.mem_cons_of_mem id0 hx'
    · intro k x hget
      by_cases he : x = id0
      · subst he
        show (updItems s2.items x _ x).key = k
        rw [updItems_self]
        exact (hlk k x hget).2.1
      · show (updItems s2.items id0 _ x).key = k
        rw [updItems_ne s2.items id0 x _ he]
        exact (hlk k x hget).2.1
    · intro k x hget
      exact (hlk k x hget).2.2
    · intro x hx
      by_cases he : x = id0
      · subst he
        show alGet s2.lookup ((updItems s2.items x _ x).key) = some x
        rw [updItems_self]
        exact hnew6
      · show alGet s2.lookup ((updItems s2.items id0 _ x).key) = some x
        rw [updItems_ne s2.items id0 x _ he]
        rcases List.mem_cons.mp hx with h1 | h1
        · exact absurd h1 he
        · exact hmemLk x h1
  rw [procMsg, hdp]
  simp only
  by_cases hgc : ms < s2.size + (s2.items id0).size
  · rw [if_pos]
    · obtain ⟨C1, C2, C3, C4⟩ := gcInv _ hcore3
      refine ⟨C1, by rw [C3]; exact hms, by rw [C4]; exact hpr, ?_⟩
      rw [C2]
      show s2.size + (s2.items id0).size
          - ((min s2.itemsToPrune (id0 :: s2.lruList).length : Nat) : Int)
          ≤ max ms 0
      rw [hnew3, hpr]
      simp only [List.length_cons]
      have hmax0 : (0 : Int) ≤ max ms 0 := le_max_right ms 0
      have hlen : s2.size = (s2.lruList.length : Int) := hszEq
      omega
    · refine ⟨by trivial, ?_⟩
      show s2.maxSize < s2.size + (s2.items id0).size
      rw [hms]
      exact hgc
  · rw [if_neg]
    · refine ⟨hcore3, hms, hpr, ?_⟩
      show s2.size + (s2.items id0).size ≤ max ms 0
      have hmax1 : ms ≤ max ms 0 := le_max_left ms 0
      rw [hnew3]
      rw [hnew3] at hgc
      omega
    · intro hand
      refine hgc ?_
      rw [← hms]
      exact hand.2

theorem InvFull_applyOp (ms : Int) (prune : Nat) (hprune : 1 ≤ prune)
    (s : CacheState) (op : Op) (hop : opUnit op)
    (hinv : InvFull ms prune s) : InvFull ms prune (applyOp s op) := by
  obtain ⟨hcore, hms, hpr, hbound⟩ := hinv
  cases op with
  | get k now =>
      show InvFull ms prune ((cacheGet s k now).2.foldl procMsg s)
      rcases hget : alGet s.lookup k with _ | id
      · simp only [cacheGet, hget]
        exact ⟨hcore, hms, hpr, hbound⟩
      · by_cases hexp : (s.items id).IsExpiredAt now = true
        · simp only [cacheGet, hget, hexp, if_true]
          exact ⟨hcore, hms, hpr, hbound⟩
        · simp only [cacheGet, hget, hexp, if_false, List.foldl_cons,
            List.foldl_nil]
          exact InvFull_promote_existing ms prune s id ⟨hcore, hms, hpr, hbound⟩
            (hcore.lkMem k id hget)
  | set k v d now =>
      have hop' : goValueSize v = 1 := hop
      show InvFull ms prune
        ((cacheSet s k v d now false).2.2.foldl procMsg
          (cacheSet s k v d now false).1)
      have hstate : (cacheSet s k v d now false).1
          = { s with
              items := updItems s.items s.nextId (newItemInt64 k v (now + d) false)
              nextId := s.nextId + 1
              lookup := alPut s.lookup k s.nextId } := by
        simp [cacheSet, bucketSet]
      have hnewit : updItems s.items s.nextId (newItemInt64 k v (now + d) false)
          s.nextId = newItemInt64 k v (now + d) false := updItems_self _ _ _
      rcases hex : alGet s.lookup k with _ | ex
      · have hmsgs : (cacheSet s k v d now false).2.2
            = [Msg.promote s.nextId] := by
          simp [cacheSet, bucketSet, hex]
        rw [hmsgs, hstate]
        simp only [List.foldl_cons, List.foldl_nil]
        refine InvFull_linkNew ms prune hprune _ s.nextId
          ?_ ?_ ?_ ?_ ?_ ?_ ?_ ?_ ?_ ?_ ?_ ?_ ?_ ?_ ?_ ?_ ?_
        · exact hms
        · exact hpr
        · exact hcore.htrack
        · exact hcore.nodup
        · intro id hid
          have hne : id ≠ s.nextId := by
            have := hcore.fresh id hid
            omega
          show (updItems s.items s.nextId _ id).size = 1
          rw [updItems_ne s.items s.nextId id _ hne]
          exact hcore.unit id hid
        · intro id hid
          have hne : id ≠ s.nextId := by
            have := hcore.fresh id hid
            omega
          show (updItems s.items s.nextId _ id).element = true
          rw [updItems_ne s.items s.nextId id _ hne]
          exact hcore.linked id hid
        · intro id hid
          have := hcore.fresh id hid
          show id < s.nextId + 1
          omega
        · exact hcore.szEq
        · intro k' id hget
          by_cases hk : k' = k
          · subst hk
            rw [alGet_alPut_self] at hget
            cases hget
            refine ⟨Or.inl rfl, ?_, by show s.nextId < s.nextId + 1; omega⟩
            show (updItems s.items s.nextId _ s.nextId).key = _
            rw [hnewit]
            rfl
          · rw [alGet_alPut_ne s.lookup k k' s.nextId hk] at hget
            have hne : id ≠ s.nextId := by
              have := hcore.lkFresh k' id hget
              omega
            refine ⟨Or.inr (hcore.lkMem k' id hget), ?_,
              by have := hcore.lkFresh k' id hget; show id < s.nextId + 1; omega⟩
            show (updItems s.items s.nextId _ id).key = k'
            rw [updItems_ne s.items s.nextId id _ hne]
            exact hcore.lkKey k' id hget
        · intro id hid
          have hne : id ≠ s.nextId := by
            have := hcore.fresh id hid
            omega
          show alGet (alPut s.lookup k s.nextId)
            ((updItems s.items s.nextId _ id).key) = some id
          rw [updItems_ne s.items s.nextId id _ hne]
          have hkk : (s.items id).key ≠ k := by
            intro he
            have h1 := hcore.memLk id hid
            rw [he, hex] at h1
            cases h1
          rw [alGet_alPut_ne s.lookup k _ s.nextId hkk]
          exact hcore.memLk id hid
        · show (updItems s.items s.nextId _ s.nextId).element = false
          rw [hnewit]
          rfl
        · show (updItems s.items s.nextId _ s.nextId).promotions = 0
          rw [hnewit]
          rfl
        · show (updItems s.items s.nextId _ s.nextId).size = 1
          rw [hnewit]
          exact hop'
        · intro hmem
          have := hcore.fresh s.nextId hmem
          omega
        · show s.nextId < s.nextId + 1
          omega
        · show alGet (alPut s.lookup k s.nextId)
            ((updItems s.items s.nextId _ s.nextId).key) = some s.nextId
          rw [hnewit]
          exact alGet_alPut_self s.lookup k s.nextId
        · exact hbound
      · have hmsgs : (cacheSet s k v d now false).2.2
            = [Msg.delete ex, Msg.promote s.nextId] := by
          simp [cacheSet, bucketSet, hex]
        rw [hmsgs, hstate]
        simp only [List.foldl_cons, List.foldl_nil]
        have hexm := hcore.lkMem k ex hex
        have hexk := hcore.lkKey k ex hex
        have hexf := hcore.lkFresh k ex hex
        have hexne : ex ≠ s.nextId := by omega
        have hit : updItems s.items s.nextId (newItemInt64 k v (now + d) false)
            ex = s.items ex := updItems_ne s.items s.nextId ex _ hexne
        have hlen1 : 0 < s.lruList.length :=
          List.length_pos.mpr (List.ne_nil_of_mem hexm)
        have hdel : procMsg { s with
              items := updItems s.items s.nextId (newItemInt64 k v (now + d) false)
              nextId := s.nextId + 1
              lookup := alPut s.lookup k s.nextId } (Msg.delete ex)
            = { s with
              items := updItems s.items s.nextId (newItemInt64 k v (now + d) false)
              nextId := s.nextId + 1
              lookup := alPut s.lookup k s.nextId
              size := s.size - (s.items ex).size
              lruList := s.lruList.erase ex } := by
          show doDelete _ ex = _
          rw [doDelete_linked _ ex (by
            show (updItems s.items s.nextId (newItemInt64 k v (now + d) false)
              ex).element = true
            rw [hit]
            exact hcore.linked ex hexm)]
          simp [hit]
        rw [hdel]
        refine InvFull_linkNew ms prune hprune _ s.nextId
          ?_ ?_ ?_ ?_ ?_ ?_ ?_ ?_ ?_ ?_ ?_ ?_ ?_ ?_ ?_ ?_ ?_
        · exact hms
        · exact hpr
        · exact hcore.htrack
        · exact List.Nodup.erase ex hcore.nodup
        · intro id hid
          obtain ⟨hne, hmem⟩ := (List.Nodup.mem_erase_iff hcore.nodup).mp hid
          have hni : id ≠ s.nextId := by
            have := hcore.fresh id hmem
            omega
          show (updItems s.items s.nextId _ id).size = 1
          rw [updItems_ne s.items s.nextId id _ hni]
          exact hcore.unit id hmem
        · intro id hid
          obtain ⟨hne, hmem⟩ := (List.Nodup.mem_erase_iff hcore.nodup).mp hid
          have hni : id ≠ s.nextId := by
            have := hcore.fresh id hmem
            omega
          show (updItems s.items s.nextId _ id).element = true
          rw [updItems_ne s.items s.nextId id _ hni]
          exact hcore.linked id hmem
        · intro id hid
          obtain ⟨hne, hmem⟩ := (List.Nodup.mem_erase_iff hcore.nodup).mp hid
          have := hcore.fresh id hmem
          show id < s.nextId + 1
          omega
        · show s.size - (s.items ex).size = ((s.lruList.erase ex).length : Int)
          rw [hcore.unit ex hexm, List.length_erase_of_mem hexm, hcore.szEq]
          omega
        · intro k' id hget
          by_cases hk : k' = k
          · subst hk
            rw [alGet_alPut_self] at hget
            cases hget
            refine ⟨Or.inl rfl, ?_, by show s.nextId < s.nextId + 1; omega⟩
            show (updItems s.items s.nextId _ s.nextId).key = _
            rw [hnewit]
            rfl
          · rw [alGet_alPut_ne s.lookup k k' s.nextId hk] at hget
            have hni : id ≠ s.nextId := by
              have := hcore.lkFresh k' id hget
              omega
            have hnex : id ≠ ex := by
              intro he
              subst he
              exact hk ((hcore.lkKey k' id hget).symm.trans hexk)
            refine ⟨Or.inr ((List.Nodup.mem_erase_iff hcore.nodup).mpr
                ⟨hnex, hcore.lkMem k' id hget⟩), ?_,
              by have := hcore.lkFresh k' id hget; show id < s.nextId + 1; omega⟩
            show (updItems s.items s.nextId _ id).key = k'
            rw [updItems_ne s.items s.nextId id _ hni]
            exact hcore.lkKey k' id hget
        · intro id hid
          obtain ⟨hne, hmem⟩ := (List.Nodup.mem_erase_iff hcore.nodup).mp hid
          have hni : id ≠ s.nextId := by
            have := hcore.fresh id hmem
            omega
          show alGet (alPut s.lookup k s.nextId)
            ((updItems s.items s.nextId _ id).key) = some id
          rw [updItems_ne s.items s.nextId id _ hni]
          have hkk : (s.items id).key ≠ k := by
            intro he
            have h1 := hcore.memLk id hmem
            rw [he, hex] at h1
            exact hne (Option.some.inj h1).symm
          rw [alGet_alPut_ne s.lookup k _ s.nextId hkk]
          exact hcore.memLk id hmem
        · show (updItems s.items s.nextId _ s.nextId).element = false
          rw [hnewit]
          rfl
        · show (updItems s.items s.nextId _ s.nextId).promotions = 0
          rw [hnewit]
          rfl
        · show (updItems s.items s.nextId _ s.nextId).size = 1
          rw [hnewit]
          exact hop'
        · intro hmem
          have := hcore.fresh s.nextId (List.mem_of_mem_erase hmem)
          omega
        · show s.nextId < s.nextId + 1
          omega
        · show alGet (alPut s.lookup k s.nextId)
            ((updItems s.items s.nextId _ s.nextId).key) = some s.nextId
          rw [hnewit]
          exact alGet_alPut_self s.lookup k s.nextId
        · show s.size - (s.items ex).size ≤ max ms 0
          rw [hcore.unit ex hexm]
          have hmax0 : (0 : Int) ≤ max ms 0 := le_max_right ms 0
          have hlen : s.size = (s.lruList.length : Int) := hcore.szEq
          omega

theorem InvFull_runOps_aux (ms : Int) (prune : Nat) (hprune : 1 ≤ prune) :
    ∀ (ops : List Op) (s : CacheState), InvFull ms prune s →
      (∀ op ∈ ops, opUnit op) → InvFull ms prune (ops.foldl applyOp s) := by
  intro ops
  induction ops with
  | nil =>
      intro s h _
      exact h
  | cons o t ih =>
      intro s h hops
      exact ih (applyOp s o)
        (InvFull_applyOp ms prune hprune s o (hops o (List.mem_cons_self o t)) h)
        (fun op hop => hops op (List.mem_cons_of_mem o hop))

theorem InvFull_init (ms : Int) (prune : Nat) (gpp : Int) :
    InvFull ms prune (initState ms prune gpp false) := by
  refine ⟨?_, rfl, rfl, le_max_right ms 0⟩
  constructor
  · rfl
  · exact List.nodup_nil
  · intro id hid
    cases hid
  · intro id hid
    cases hid
  · intro id hid
    cases hid
  · rfl
  · intro k id h
    cases h
  · intro k id h
    cases h
  · intro k id h
    cases h
  · intro id hid
    cases hid

/-! ## Claim C9: bucket-count normalization -/

/-- Two numbers summing to an all-ones value share no set bit. -/
theorem land_zero_of_add_eq_pow_sub_one :
    ∀ (k a b : Nat), a + b = 2 ^ k - 1 → a &&& b = 0 := by
  intro k
  induction k with
  | zero =>
      intro a b h
      have ha : a = 0 := by omega
      subst ha
      simp
  | succ k ih =>
      intro a b h
      have hp : 1 ≤ 2 ^ k := Nat.one_le_two_pow
      rw [pow_succ] at h
      have hx : a % 2 + b % 2 = 1 ∧ a / 2 + b / 2 = 2 ^ k - 1 := by omega
      rcases (by omega : a % 2 = 0 ∧ b % 2 = 1 ∨ a % 2 = 1 ∧ b % 2 = 0) with
        ⟨h1, h2⟩ | ⟨h1, h2⟩
      · have ea : a = Nat.bit false (a / 2) := by rw [Nat.bit_val]; simp; omega
        have eb : b = Nat.bit true (b / 2) := by rw [Nat.bit_val]; simp; omega
        rw [ea, eb, Nat.land_bit, ih (a / 2) (b / 2) hx.2]
        simp [Nat.bit]
      · have ea : a = Nat.bit true (a / 2) := by rw [Nat.bit_val]; simp; omega
        have eb : b = Nat.bit false (b / 2) := by rw [Nat.bit_val]; simp; omega
        rw [ea, eb, Nat.land_bit, ih (a / 2) (b / 2) hx.2]
        simp [Nat.bit]

/-- A positive `c < 2^n` is fixed by `c & (2^n - c)` only when it is a power
of two. -/
theorem pow_two_of_land_sub :
    ∀ (n : Nat), ∀ c, 0 < c → c < 2 ^ n → c &&& (2 ^ n - c) = c →
      ∃ j, c = 2 ^ j := by
  intro n
  induction n with
  | zero =>
      intro c hc hlt _
      omega
  | succ n ih =>
      intro c hc hlt hland
      have hp : 1 ≤ 2 ^ n := Nat.one_le_two_pow
      have hps : (2 : Nat) ^ (n + 1) = 2 ^ n * 2 := pow_succ 2 n
      rcases (by omega : c % 2 = 0 ∨ c % 2 = 1) with h1 | h1
      · obtain ⟨d, rfl⟩ : ∃ d, c = 2 * d := ⟨c / 2, by omega⟩
        have hd : 0 < d := by omega
        have hlt' : d < 2 ^ n := by omega
        have e1 : 2 * d = Nat.bit false d := by rw [Nat.bit_val]; simp
        have e2 : 2 ^ (n + 1) - Nat.bit false d = Nat.bit false (2 ^ n - d) := by
          rw [Nat.bit_val, Nat.bit_val]; simp; omega
        rw [e1, e2, Nat.land_bit] at hland
        have hland' : d &&& (2 ^ n - d) = d := by
          have := congrArg (· / 2) hland
          simp [Nat.bit_val] at this
          omega
        obtain ⟨j, hj⟩ := ih d hd hlt' hland'
        exact ⟨j + 1, by rw [pow_succ]; omega⟩
      · obtain ⟨d, rfl⟩ : ∃ d, c = 2 * d + 1 := ⟨c / 2, by omega⟩
        by_cases hd0 : d = 0
        · exact ⟨0, by omega⟩
        · have e1 : 2 * d + 1 = Nat.bit true d := by rw [Nat.bit_val]; simp
          have e2 : 2 ^ (n + 1) - Nat.bit true d
              = Nat.bit true (2 ^ n - d - 1) := by
            rw [Nat.bit_val, Nat.bit_val]; simp; omega
          rw [e1, e2, Nat.land_bit] at hland
          have hland' : d &&& (2 ^ n - d - 1) = d := by
            have := congrArg (· / 2) hland
            simp [Nat.bit_val] at this
            omega
          have hzero : d &&& (2 ^ n - d - 1) = 0 :=
            land_zero_of_add_eq_pow_sub_one n d (2 ^ n - d - 1) (by omega)
          omega

/-- The 32 powers of two below 2^32 pass the `count & (^count+1)` test. -/
theorem bucketsCheck_pow : ∀ j, j < 32 → bucketsCheck (2 ^ j) = 2 ^ j := by
  decide

/-- C9: for every `uint32` count handed to the `Buckets` option, a zero or
non-power-of-two count is silently normalized to the default 16 rather than
rejected, while a power of two is kept as given. -/
theorem C9_buckets_normalized (c : ConfigurationInt64) (count : Nat)
    (hlt : count < 4294967296) :
    ((count = 0 ∨ ¬∃ j, count = 2 ^ j) → (c.Buckets count).buckets = 16) ∧
    ((∃ j, count = 2 ^ j) → (c.Buckets count).buckets = count) := by
  constructor
  · intro h
    by_cases h0 : count = 0
    · simp [ConfigurationInt64.Buckets, h0]
    · have hnp : ¬∃ j, count = 2 ^ j := by
        rcases h with h | h
        · exact absurd h h0
        · exact h
      have hne : ¬(bucketsCheck count = count) := by
        intro heq
        apply hnp
        have h32 : (2 : Nat) ^ 32 = 4294967296 := by norm_num
        apply pow_two_of_land_sub 32 count (by omega) (by omega)
        have hmod : (4294967296 - count) % 4294967296 = 4294967296 - count :=
          Nat.mod_eq_of_lt (by omega)
        rw [bucketsCheck, hmod] at heq
        rw [h32]
        exact heq
      simp [ConfigurationInt64.Buckets, hne]
  · rintro ⟨j, rfl⟩
    have hj32 : j < 32 := by
      by_contra hge
      push_neg at hge
      have hb : (2 : Nat) ^ 32 ≤ 2 ^ j := Nat.pow_le_pow_right (by norm_num) hge
      norm_num at hb
      omega
    have h0 : (2 : Nat) ^ j ≠ 0 := (Nat.two_pow_pos j).ne'
    have hchk := bucketsCheck_pow j hj32
    simp [ConfigurationInt64.Buckets, hchk, h0]

/-- C9 witness: count 0 and the non-power-of-two 6 both normalize to 16;
the power of two 8 is kept. -/
theorem C9_witness :
    (ConfigureInt64.Buckets 0).buckets = 16 ∧
    (ConfigureInt64.Buckets 6).buckets = 16 ∧
    (ConfigureInt64.Buckets 8).buckets = 8 := by
  refine ⟨?_, ?_, ?_⟩
  · exact (C9_buckets_normalized ConfigureInt64 0 (by norm_num)).1 (Or.inl rfl)
  · refine (C9_buckets_normalized ConfigureInt64 6 (by norm_num)).1 (Or.inr ?_)
    rintro ⟨j, hj⟩
    rcases (by omega : j ≤ 2 ∨ 3 ≤ j) with hj2 | hj3
    · interval_cases j <;> norm_num at hj
    · have h8 : (2 : Nat) ^ 3 ≤ 2 ^ j := Nat.pow_le_pow_right (by norm_num) hj3
      norm_num at h8
      omega
  · exact (C9_buckets_normalized ConfigureInt64 8 (by norm_num)).2 ⟨3, rfl⟩

/-! ## Claim C1: the `Set(A), Set(B), Set(C)` scenario -/

/-- C1, counterexample: with max size 2 and `itemsToPrune` 10, the third
`Set` pushes the size to 3 and the GC sweep then evicts up to `itemsToPrune`
candidates from the back with no stop-at-budget check, so A, B and C are all
evicted: three evictions occur (not one) and `ItemCount()` is 0 (not 2). -/
theorem C1_counterexample :
    c1State.evicted = [0, 1, 2] ∧ ItemCount c1State = 0 ∧
      ¬(c1State.evicted.length = 1 ∧ ItemCount c1State = 2) := by
  decide

/-- C1, amended: with max size 2 and `itemsToPrune` 1, after `Set(A)`,
`Set(B)`, `Set(C)` in order with no reads in between and all promote messages
processed, exactly one eviction occurs, the evicted key is A, and
`ItemCount()` returns 2 afterward (B and C remain, C most recent). -/
theorem C1_amended :
    c1StateAmended.evicted = [0] ∧ ItemCount c1StateAmended = 2 ∧
      c1StateAmended.lruList = [2, 1] := by
  decide

/-! ## Claim C2: the increment family -/

/-- C2, code evaluation at the failing input: `Incr` on a missing key returns
the delta 5 and creates the entry (deadline 100); the renewing call
`IncrPromote` at time 50 returns the sum 8 — but it routes through
`bucket.incr`/`incrNow`, so the deadline stays 100 instead of being pushed to
50 + 100 = 150; the unused `bucket.incrNowPromote`, which matches the
documented "incr and then renew ttl" behaviour, would store deadline 150 on
that very input. -/
theorem C2_code_bug_eval :
    c2First.2.1 = 5 ∧ alGet c2First.1.lookup 7 = some 0 ∧
      (c2First.1.items 0).expires = 100 ∧
      c2Second.2.1 = 8 ∧ (c2Second.1.items 0).value = .intPtr 8 ∧
      (c2Second.1.items 0).expires = 100 ∧ (100 : Int) ≠ 50 + 100 ∧
      ((incrNowPromote c2First.1 7 3 50 100 false).1.items 0).expires = 150 := by
  decide

/-! ## Claim C7: `set` replaces unconditionally and signals the coordinator -/

/-- C7: `set` always stores a freshly allocated entry over any previous one;
a previous entry triggers exactly one blocking delete message for it, followed
by the promote message for the new entry; with no previous entry only the
promote message is sent; the new entry is the one stored and returned. -/
theorem C7_set_replaces_and_signals (s : CacheState) (k : Int) (v : GoValue)
    (d now : Int) (track : Bool) :
    (cacheSet s k v d now track).2.1 = s.nextId ∧
    alGet (cacheSet s k v d now track).1.lookup k = some s.nextId ∧
    (cacheSet s k v d now track).1.items s.nextId
      = newItemInt64 k v (now + d) track ∧
    (∀ ex, alGet s.lookup k = some ex →
      (cacheSet s k v d now track).2.2 = [Msg.delete ex, Msg.promote s.nextId]) ∧
    (alGet s.lookup k = none →
      (cacheSet s k v d now track).2.2 = [Msg.promote s.nextId]) := by
  refine ⟨rfl, ?_, ?_, ?_, ?_⟩
  · simp [cacheSet, bucketSet, alGet_alPut_self]
  · simp [cacheSet, bucketSet, updItems]
  · intro ex hex
    simp [cacheSet, bucketSet, hex]
  · intro hnone
    simp [cacheSet, bucketSet, hnone]

/-- C7 witness: on an empty cache, `set` of key 4 sends only a promote; a
second `set` of key 4 sends the delete for the displaced entry and then the
promote, and the second entry is the one stored. -/
theorem C7_witness :
    (cacheSet (initState 5 5 3 false) 4 (.plain 1) 10 0 false).2.2
        = [Msg.promote 0] ∧
    (cacheSet (cacheSet (initState 5 5 3 false) 4 (.plain 1) 10 0 false).1
        4 (.plain 2) 10 1 false).2.2 = [Msg.delete 0, Msg.promote 1] ∧
    alGet (cacheSet (cacheSet (initState 5 5 3 false) 4 (.plain 1) 10 0 false).1
        4 (.plain 2) 10 1 false).1.lookup 4 = some 1 := by
  refine ⟨?_, ?_, ?_⟩
  · exact (C7_set_replaces_and_signals (initState 5 5 3 false) 4 (.plain 1)
      10 0 false).2.2.2.2 (by decide)
  · exact (C7_set_replaces_and_signals
      (cacheSet (initState 5 5 3 false) 4 (.plain 1) 10 0 false).1 4 (.plain 2)
      10 1 false).2.2.2.1 0 (by decide)
  · exact (C7_set_replaces_and_signals
      (cacheSet (initState 5 5 3 false) 4 (.plain 1) 10 0 false).1 4 (.plain 2)
      10 1 false).2.1

/-! ## Claim C8: `Get` returns expired entries; promotes only live hits -/

/-- C8: `Get` returns a stored entry even when expired; it sends a promote
message exactly when the entry is found and not expired (a miss or an expired
hit sends nothing); an entry set with a negative ttl (such as -1s) is still
retrievable, reports expired, and has a negative remaining ttl. -/
theorem C8_get_expired_still_returned (s : CacheState) (k now : Int) :
    (∀ id, alGet s.lookup k = some id →
      (cacheGet s k now).1 = some id ∧
      ((s.items id).IsExpiredAt now = true → (cacheGet s k now).2 = []) ∧
      ((s.items id).IsExpiredAt now = false →
        (cacheGet s k now).2 = [Msg.promote id])) ∧
    (alGet s.lookup k = none → cacheGet s k now = (none, [])) ∧
    (∀ v d, d < 0 →
      (cacheGet (cacheSet s k v d now false).1 k now).1 = some s.nextId ∧
      ((cacheSet s k v d now false).1.items s.nextId).IsExpiredAt now = true ∧
      ((cacheSet s k v d now false).1.items s.nextId).TTLAt now < 0 ∧
      (cacheGet (cacheSet s k v d now false).1 k now).2 = []) := by
  refine ⟨?_, ?_, ?_⟩
  · intro id hid
    refine ⟨by simp [cacheGet, hid], ?_, ?_⟩
    · intro hexp; simp [cacheGet, hid, hexp]
    · intro hlive; simp [cacheGet, hid, hlive]
  · intro hnone; simp [cacheGet, hnone]
  · intro v d hd
    have hitem : (cacheSet s k v d now false).1.items s.nextId
        = newItemInt64 k v (now + d) false := by
      simp [cacheSet, bucketSet, updItems]
    have hlk : alGet (cacheSet s k v d now false).1.lookup k = some s.nextId := by
      simp [cacheSet, bucketSet, alGet_alPut_self]
    have hexp : ((cacheSet s k v d now false).1.items s.nextId).IsExpiredAt now
        = true := by
      rw [hitem]
      simp only [ItemInt64.IsExpiredAt, newItemInt64, decide_eq_true_eq]
      omega
    refine ⟨by simp [cacheGet, hlk], hexp, ?_, by simp [cacheGet, hlk, hexp]⟩
    rw [hitem]
    simp only [ItemInt64.TTLAt, newItemInt64]
    omega

/-- C8 witness: concrete instances — a hit on key 4 with the entry expired is
returned with no promote message; a live hit is promoted; a miss returns
nothing; a `set` with ttl = -1s (at time 10^9) is retrievable, expired, with
ttl -10^9. -/
theorem C8_witness :
    (cacheGet (cacheSet (initState 5 5 3 false) 4 (.plain 1) 10 0 false).1
        4 100).1 = some 0 ∧
    (cacheGet (cacheSet (initState 5 5 3 false) 4 (.plain 1) 10 0 false).1
        4 100).2 = [] ∧
    (cacheGet (cacheSet (initState 5 5 3 false) 4 (.plain 1) 10 0 false).1
        4 3).2 = [Msg.promote 0] ∧
    cacheGet (initState 5 5 3 false) 4 0 = (none, []) ∧
    (cacheGet (cacheSet (initState 5 5 3 false) 4 (.plain 1) (-1000000000)
        1000000000 false).1 4 1000000000).1 = some 0 ∧
    ((cacheSet (initState 5 5 3 false) 4 (.plain 1) (-1000000000) 1000000000
        false).1.items 0).IsExpiredAt 1000000000 = true ∧
    ((cacheSet (initState 5 5 3 false) 4 (.plain 1) (-1000000000) 1000000000
        false).1.items 0).TTLAt 1000000000 < 0 := by
  refine ⟨?_, ?_, ?_, ?_, ?_, ?_, ?_⟩
  · exact ((C8_get_expired_still_returned
      (cacheSet (initState 5 5 3 false) 4 (.plain 1) 10 0 false).1 4 100).1 0
      (by decide)).1
  · exact ((C8_get_expired_still_returned
      (cacheSet (initState 5 5 3 false) 4 (.plain 1) 10 0 false).1 4 100).1 0
      (by decide)).2.1 (by decide)
  · exact ((C8_get_expired_still_returned
      (cacheSet (initState 5 5 3 false) 4 (.plain 1) 10 0 false).1 4 3).1 0
      (by decide)).2.2 (by decide)
  · exact (C8_get_expired_still_returned (initState 5 5 3 false) 4 0).2.1
      (by decide)
  · exact ((C8_get_expired_still_returned (initState 5 5 3 false) 4
      1000000000).2.2 (.plain 1) (-1000000000) (by decide)).1
  · exact ((C8_get_expired_still_returned (initState 5 5 3 false) 4
      1000000000).2.2 (.plain 1) (-1000000000) (by decide)).2.1
  · exact ((C8_get_expired_still_returned (initState 5 5 3 false) 4
      1000000000).2.2 (.plain 1) (-1000000000) (by decide)).2.2.1

/-! ## Claim C10: `Incr`/`IncrPromote` displace silently -/

/-- C10: when `Incr` or `IncrPromote` hits a key whose existing entry is
expired, or whose value is not an `*int64`, the existing entry is displaced
in the shard map by a fresh entry holding the delta, yet — unlike `set` — no
delete message is sent for the displaced entry: the only message either call
sends is the promote for the new entry. -/
theorem C10_incr_displaces_without_delete (s : CacheState) (k n d now : Int)
    (ex : Nat) (hex : alGet s.lookup k = some ex) (hfresh : ex < s.nextId)
    (hcond : (s.items ex).IsExpiredAt now = true ∨
      (s.items ex).value.isIntPtr = false) :
    alGet (cacheIncr s k n now d).1.lookup k = some s.nextId ∧
    s.nextId ≠ ex ∧
    (cacheIncr s k n now d).1.items s.nextId
      = newItemInt64 k (.intPtr n) (now + d) false ∧
    (cacheIncr s k n now d).2.1 = n ∧
    (cacheIncr s k n now d).2.2 = [Msg.promote s.nextId] ∧
    (cacheIncrPromote s k n now d).2.2 = [Msg.promote s.nextId] ∧
    (cacheIncrPromote s k n now d).1.lookup = (cacheIncr s k n now d).1.lookup := by
  have hstore : incrNow s k n now d false =
      ({ s with
          items := updItems s.items s.nextId
            (newItemInt64 k (.intPtr n) (now + d) false)
          nextId := s.nextId + 1
          lookup := alPut s.lookup k s.nextId }, n, some s.nextId, none) := by
    rcases hcond with hexp | hval
    · have : ¬(now < (s.items ex).expires) := by
        simp only [ItemInt64.IsExpiredAt, decide_eq_true_eq] at hexp
        omega
      simp [incrNow, hex, this]
    · by_cases hlt : now < (s.items ex).expires
      · rcases hv : (s.items ex).value with v | t | ⟨t, sz⟩
        · rw [hv] at hval
          simp [GoValue.isIntPtr] at hval
        · simp only [incrNow, hex, hv, if_pos hlt]
        · simp only [incrNow, hex, hv, if_pos hlt]
      · simp [incrNow, hex, hlt]
  refine ⟨?_, by omega, ?_, ?_, ?_, ?_, ?_⟩
  · simp [cacheIncr, hstore, alGet_alPut_self]
  · simp [cacheIncr, hstore, updItems]
  · simp [cacheIncr, hstore]
  · simp [cacheIncr, hstore]
  · simp [cacheIncrPromote, hstore]
  · simp [cacheIncrPromote, cacheIncr, hstore]

/-- C10 witness: on a cache holding an expired entry for key 4 and a live
non-integer entry for key 9, `Incr`/`IncrPromote` each displace the old entry
with a fresh delta-entry and send only a promote message for it. -/
theorem C10_witness :
    alGet (cacheIncr (cacheSet (initState 5 5 3 false) 4 (.plain 1)
        (-10) 0 false).1 4 5 0 100).1.lookup 4 = some 1 ∧
    (cacheIncr (cacheSet (initState 5 5 3 false) 4 (.plain 1)
        (-10) 0 false).1 4 5 0 100).2.2 = [Msg.promote 1] ∧
    (cacheIncrPromote (cacheSet (initState 5 5 3 false) 9 (.plain 1)
        1000 0 false).1 9 5 0 100).2.2 = [Msg.promote 1] := by
  refine ⟨?_, ?_, ?_⟩
  · exact (C10_incr_displaces_without_delete
      (cacheSet (initState 5 5 3 false) 4 (.plain 1) (-10) 0 false).1 4 5 100 0
      0 (by decide) (by decide) (Or.inl (by decide))).1
  · exact (C10_incr_displaces_without_delete
      (cacheSet (initState 5 5 3 false) 4 (.plain 1) (-10) 0 false).1 4 5 100 0
      0 (by decide) (by decide) (Or.inl (by decide))).2.2.2.2.1
  · exact (C10_incr_displaces_without_delete
      (cacheSet (initState 5 5 3 false) 9 (.plain 1) 1000 0 false).1 9 5 100 0
      0 (by decide) (by decide) (Or.inr (by decide))).2.2.2.2.2.1

/-! ## Claim C4: the promotion threshold -/

/-- C4: with `getsPerPromote = 3`, an entry already linked in the recency
list (with a fresh promotion counter) keeps its exact list position through
two processed promote messages; the third moves it to the front of the list
and resets its promotion counter to zero. -/
theorem C4_promotion_threshold (s : CacheState) (id : Nat)
    (hgets : s.getsPerPromote = 3)
    (hmem : id ∈ s.lruList)
    (helem : (s.items id).element = true)
    (hcnt : (s.items id).promotions = 0) :
    (doPromote s id).1.lruList = s.lruList ∧
    (doPromote (doPromote s id).1 id).1.lruList = s.lruList ∧
    (doPromote (doPromote (doPromote s id).1 id).1 id).1.lruList
      = id :: s.lruList.erase id ∧
    ((doPromote (doPromote (doPromote s id).1 id).1 id).1.items id).promotions
      = 0 := by
  have e1 : doPromote s id
      = ({ s with items := updItems s.items id
                    ({ s.items id with promotions := 1 }) }, false) := by
    have := doPromote_linked_noMove s id (by rw [hcnt]; decide) helem
      (by rw [hcnt, hgets]; decide)
    rw [this, hcnt]
    norm_num [wrap32]
  have hit1 : (doPromote s id).1.items id
      = { s.items id with promotions := 1 } := by
    rw [e1]; exact updItems_self _ _ _
  have e2 : doPromote (doPromote s id).1 id
      = ({ (doPromote s id).1 with
            items := updItems (doPromote s id).1.items id
                       ({ s.items id with promotions := 2 }) }, false) := by
    have := doPromote_linked_noMove (doPromote s id).1 id
      (by rw [hit1]; norm_num) (by rw [hit1]; exact helem)
      (by rw [hit1, e1]; simp only [hgets]; norm_num [wrap32])
    rw [this, hit1]
    norm_num [wrap32]
  have hit2 : (doPromote (doPromote s id).1 id).1.items id
      = { s.items id with promotions := 2 } := by
    rw [e2]; exact updItems_self _ _ _
  have hl1 : (doPromote s id).1.lruList = s.lruList := by rw [e1]
  have hl2 : (doPromote (doPromote s id).1 id).1.lruList = s.lruList := by
    rw [e2, e1]
  have e3 := doPromote_linked_move (doPromote (doPromote s id).1 id).1 id
    (by rw [hit2]; norm_num) (by rw [hit2]; exact helem)
    (by rw [hit2, e2, e1]; simp only [hgets]; norm_num [wrap32])
  refine ⟨hl1, hl2, ?_, ?_⟩
  · rw [e3]
    simp only [hl2, hmem, if_pos]
  · rw [e3]
    simp only [updItems_self]

/-- C4 witness: on the concrete two-entry state, two promotes of entry 0
leave the list `[1, 0]` unchanged and the third moves entry 0 to the front
with its counter reset. -/
theorem C4_witness :
    (doPromote c4State 0).1.lruList = c4State.lruList ∧
    (doPromote (doPromote c4State 0).1 0).1.lruList = c4State.lruList ∧
    (doPromote (doPromote (doPromote c4State 0).1 0).1 0).1.lruList
      = 0 :: c4State.lruList.erase 0 ∧
    ((doPromote (doPromote (doPromote c4State 0).1 0).1 0).1.items 0).promotions
      = 0 :=
  C4_promotion_threshold c4State 0 (by decide) (by decide) (by decide)
    (by decide)

/-! ## Claim C5: tracking immunity during GC -/

/-- C5: with tracking enabled, a GC sweep never evicts an entry whose
reference count is positive, whatever the size pressure; an entry whose
reference count is (back to) zero is evicted by any sweep whose candidate
batch (the last `itemsToPrune` list positions) reaches it. -/
theorem C5_tracking_immunity (s : CacheState) (id : Nat) :
    (s.tracking = true → 0 < (s.items id).refCount → id ∈ s.lruList →
      id ∈ (gc s).lruList) ∧
    ((s.items id).refCount = 0 →
      id ∈ s.lruList.reverse.take s.itemsToPrune → s.lruList.Nodup →
      id ∉ (gc s).lruList) := by
  constructor
  · intro htr hrc hmem
    exact gcFold_keeps_tracked _ s id htr (by omega) hmem
  · intro hrc hid hnd
    exact gcFold_evicts _ s id hrc hid hnd

/-- C5 witness: the pinned entry (refCount 2 after `TrackingSet` + `track`)
survives the sweep despite the size pressure; after two `Release()` calls
bring it back to zero, the next sweep that reaches it evicts it. -/
theorem C5_witness :
    0 ∈ (gc c5State).lruList ∧
    0 ∉ (gc (releaseItem (releaseItem c5State 0) 0)).lruList := by
  constructor
  · exact (C5_tracking_immunity c5State 0).1 (by decide) (by decide) (by decide)
  · exact (C5_tracking_immunity (releaseItem (releaseItem c5State 0) 0) 0).2
      (by decide) (by decide) (by decide)

/-! ## Claim C6: `Fetch` -/

/-- C6: `Fetch` on a live unexpired hit returns that entry with no loader
influence (the result is the same for every loader); on a miss or an expired
hit it consults the loader: a loader error is returned verbatim and the whole
state — in particular the shard map — is left untouched (nothing is cached),
while a loader value is stored via `set` and the fresh entry is returned. -/
theorem C6_fetch_spec (s : CacheState) (k d now : Int) :
    (∀ id, alGet s.lookup k = some id →
      (s.items id).IsExpiredAt now = false →
      ∀ loader, cacheFetch s k d now loader
        = (s, [Msg.promote id], .ok id)) ∧
    ((∀ id, alGet s.lookup k = some id → (s.items id).IsExpiredAt now = true) →
      (∀ e, cacheFetch s k d now (.error e) = (s, [], .error e)) ∧
      (∀ v,
        (cacheFetch s k d now (.ok v)).2.2 = .ok s.nextId ∧
        alGet (cacheFetch s k d now (.ok v)).1.lookup k = some s.nextId ∧
        (cacheFetch s k d now (.ok v)).1.items s.nextId
          = newItemInt64 k v (now + d) false)) := by
  constructor
  · intro id hid hlive loader
    simp [cacheFetch, cacheGet, hid, hlive]
  · intro hstale
    rcases hlk : alGet s.lookup k with _ | id
    · refine ⟨fun e => by simp [cacheFetch, cacheGet, hlk], fun v => ?_⟩
      refine ⟨by simp [cacheFetch, cacheGet, hlk, cacheSet, bucketSet], ?_, ?_⟩
      · simp [cacheFetch, cacheGet, hlk, cacheSet, bucketSet, alGet_alPut_self]
      · simp [cacheFetch, cacheGet, hlk, cacheSet, bucketSet, updItems]
    · have hexp := hstale id hlk
      refine ⟨fun e => by simp [cacheFetch, cacheGet, hlk, hexp], fun v => ?_⟩
      refine ⟨by simp [cacheFetch, cacheGet, hlk, hexp, cacheSet, bucketSet],
        ?_, ?_⟩
      · simp [cacheFetch, cacheGet, hlk, hexp, cacheSet, bucketSet,
          alGet_alPut_self]
      · simp [cacheFetch, cacheGet, hlk, hexp, cacheSet, bucketSet, updItems]

/-- C6 witness: on a cache holding a live entry for key 4, `Fetch` returns it
unchanged for an erroring loader and for a succeeding one alike; on an empty
cache an erroring loader's error 7 comes back with the state untouched, and a
succeeding loader's value is stored under the key. -/
theorem C6_witness :
    cacheFetch (cacheSet (initState 5 5 3 false) 4 (.plain 1) 10 0 false).1
        4 10 3 (.error 7)
      = ((cacheSet (initState 5 5 3 false) 4 (.plain 1) 10 0 false).1,
         [Msg.promote 0], .ok 0) ∧
    cacheFetch (cacheSet (initState 5 5 3 false) 4 (.plain 1) 10 0 false).1
        4 10 3 (.ok (.plain 2))
      = ((cacheSet (initState 5 5 3 false) 4 (.plain 1) 10 0 false).1,
         [Msg.promote 0], .ok 0) ∧
    cacheFetch (initState 5 5 3 false) 4 10 0 (.error 7)
      = (initState 5 5 3 false, [], .error 7) ∧
    (cacheFetch (initState 5 5 3 false) 4 10 0 (.ok (.plain 2))).2.2 = .ok 0 ∧
    alGet (cacheFetch (initState 5 5 3 false) 4 10 0
        (.ok (.plain 2))).1.lookup 4 = some 0 := by
  refine ⟨?_, ?_, ?_, ?_, ?_⟩
  · exact (C6_fetch_spec (cacheSet (initState 5 5 3 false) 4 (.plain 1) 10 0
      false).1 4 10 3).1 0 (by decide) (by decide) (.error 7)
  · exact (C6_fetch_spec (cacheSet (initState 5 5 3 false) 4 (.plain 1) 10 0
      false).1 4 10 3).1 0 (by decide) (by decide) (.ok (.plain 2))
  · exact ((C6_fetch_spec (initState 5 5 3 false) 4 10 0).2
      (by intro id h; simp [initState, alGet] at h)).1 7
  · exact (((C6_fetch_spec (initState 5 5 3 false) 4 10 0).2
      (by intro id h; simp [initState, alGet] at h)).2 (.plain 2)).1
  · exact (((C6_fetch_spec (initState 5 5 3 false) 4 10 0).2
      (by intro id h; simp [initState, alGet] at h)).2 (.plain 2)).2.1

/-! ## Claim C3: the capacity invariant -/

/-- C3, counterexample: after `Set(0), Set(1), Set(2-with-weight-5)` on a
drained cache with max size 1 and `itemsToPrune` 1, the tracked total weight
is 5 > 1 although no entry is pinned (pinned weight 0): the sweep batch limit
leaves the cache over budget with no tracked entry to blame. -/
theorem C3_counterexample :
    c3State.maxSize = 1 ∧ totalWeight c3State = 5 ∧
      trackedWeight c3State = 0 ∧
      ¬(totalWeight c3State ≤ c3State.maxSize ∨
        c3State.maxSize < trackedWeight c3State) := by
  decide

/-- C3, amended: for every sequence of `Set`/`Get` operations whose stored
values all have unit weight, on a tracking-off cache with a nonnegative max
size and a positive GC batch (`itemsToPrune ≥ 1`), once the coordinator has
processed all pending messages the total tracked weight (sum of the sizes of
the list-linked entries) is at most the configured max size. -/
theorem C3_capacity_amended (ms : Int) (prune : Nat) (gpp : Int)
    (ops : List Op) (hms : 0 ≤ ms) (hprune : 1 ≤ prune)
    (hops : ∀ op ∈ ops, opUnit op) :
    totalWeight (runOps (initState ms prune gpp false) ops) ≤ ms ∧
    (runOps (initState ms prune gpp false) ops).size ≤ ms := by
  obtain ⟨hcore, _, _, hbound⟩ :=
    InvFull_runOps_aux ms prune hprune ops (initState ms prune gpp false)
      (InvFull_init ms prune gpp) hops
  have hmax : max ms 0 = ms := max_eq_left hms
  simp only [runOps]
  have htw : totalWeight (ops.foldl applyOp (initState ms prune gpp false))
      = ((ops.foldl applyOp (initState ms prune gpp false)).lruList.length : Int) :=
    sum_map_ones _ hcore.unit
  have hsz := hcore.szEq
  constructor
  · rw [htw, ← hsz]
    omega
  · omega

/-- C3 witness: the concrete run with max size 2, `itemsToPrune` 1 and three
unit-weight sets stays within budget. -/
theorem C3_witness :
    totalWeight (runOps (initState 2 1 3 false)
      [.set 0 (.plain 0) 1000 0, .set 1 (.plain 0) 1000 0,
       .set 2 (.plain 0) 1000 0]) ≤ 2 ∧
    (runOps (initState 2 1 3 false)
      [.set 0 (.plain 0) 1000 0, .set 1 (.plain 0) 1000 0,
       .set 2 (.plain 0) 1000 0]).size ≤ 2 := by
  refine C3_capacity_amended 2 1 3 _ (by norm_num) (by norm_num) ?_
  intro op hop
  simp only [List.mem_cons, List.not_mem_nil, or_false] at hop
  rcases hop with rfl | rfl | rfl <;> exact rfl

end CCache
